import Mathlib

/-!
Verification of the home-task service core: a shallow embedding of the
write/read request pipeline, the W3C trace-context codec, the entity
validator and the domain-event serialization, translated from the Rust
sources in src/src/main.rs and src/src/models.rs.

Rust strings are modelled as lists of characters; the Rust byte length
of a string (str::len) is modelled by summing the UTF-8 encoded width of
each character.  Fallible Rust functions returning Result are modelled
with Except; Option maps to Option.
-/

/-- Unicode White_Space property, as used by Rust char::is_whitespace. -/
def isRustWhitespace (c : Char) : Bool :=
  let n := c.toNat
  (0x9 ≤ n && n ≤ 0xD) || n = 0x20 || n = 0x85 || n = 0xA0 || n = 0x1680 ||
  (0x2000 ≤ n && n ≤ 0x200A) || n = 0x2028 || n = 0x2029 || n = 0x202F ||
  n = 0x205F || n = 0x3000

/-- Model of Rust str::trim_start: drop leading whitespace. -/
def rustTrimStart (l : List Char) : List Char := l.dropWhile isRustWhitespace

/-- Model of Rust str::trim_end: drop trailing whitespace. -/
def rustTrimEnd (l : List Char) : List Char :=
  (l.reverse.dropWhile isRustWhitespace).reverse

/-- Model of Rust str::trim: drop leading and trailing whitespace. -/
def rustTrim (l : List Char) : List Char := rustTrimEnd (rustTrimStart l)

/-- UTF-8 encoded byte width of one character. -/
def utf8CharLen (c : Char) : Nat :=
  if c.toNat < 0x80 then 1
  else if c.toNat < 0x800 then 2
  else if c.toNat < 0x10000 then 3
  else 4

/-- Model of Rust str::len: the UTF-8 byte length of the string. -/
def utf8Len (l : List Char) : Nat := (l.map utf8CharLen).sum

/-- The persisted entity, from src/src/models.rs (struct Item). -/
structure Item where
  id : List Char
  name : List Char
  value : Int
  created_at : List Char
deriving DecidableEq

/-- The create request body, from src/src/models.rs (struct CreateItemRequest). -/
structure CreateItemRequest where
  name : List Char
  value : Option Int
deriving DecidableEq

/-- Name validation, from src/src/models.rs (Item::validate_name): empty
trimmed name is rejected first, then a raw byte length above 255. -/
def Item.validate_name (name : List Char) : Except (List Char) Unit :=
  if (rustTrim name).isEmpty then Except.error ("name cannot be empty".toList)
  else if 255 < utf8Len name then
    Except.error ("name cannot exceed 255 characters".toList)
  else Except.ok ()

theorem rustTrimEnd_eq_nil_iff (l : List Char) :
    rustTrimEnd l = [] ↔ ∀ c ∈ l, isRustWhitespace c := by
  unfold rustTrimEnd
  rw [List.reverse_eq_nil_iff, List.dropWhile_eq_nil_iff]
  simp

theorem rustTrimStart_forall_iff (l : List Char) :
    (∀ c ∈ rustTrimStart l, isRustWhitespace c) ↔ ∀ c ∈ l, isRustWhitespace c := by
  unfold rustTrimStart
  constructor
  · intro h c hc
    rcases List.mem_append.mp ((List.takeWhile_append_dropWhile
        (p := isRustWhitespace) (l := l)) ▸ hc) with h1 | h2
    · exact List.mem_takeWhile_imp h1
    · exact h c h2
  · intro h c hc
    exact h c (List.dropWhile_subset _ hc)

theorem rustTrim_eq_nil_iff (l : List Char) :
    rustTrim l = [] ↔ ∀ c ∈ l, isRustWhitespace c := by
  unfold rustTrim
  rw [rustTrimEnd_eq_nil_iff, rustTrimStart_forall_iff]

/-- Model of Rust str::split(sep): splits at every occurrence of the
separator, keeping empty fields; the empty string yields one empty field. -/
def rustSplit (sep : Char) : List Char → List (List Char)
  | [] => [[]]
  | c :: rest =>
    if c = sep then [] :: rustSplit sep rest
    else
      match rustSplit sep rest with
      | h :: t => (c :: h) :: t
      | [] => [[c]]

theorem rustSplit_ne_nil (sep : Char) (l : List Char) : rustSplit sep l ≠ [] := by
  cases l with
  | nil => simp [rustSplit]
  | cons c rest =>
    simp only [rustSplit]
    split
    · simp
    · split <;> simp

/-- The number of fields is the number of separators plus one. -/
theorem rustSplit_length (sep : Char) (l : List Char) :
    (rustSplit sep l).length = l.count sep + 1 := by
  induction l with
  | nil => simp [rustSplit]
  | cons c rest ih =>
    simp only [rustSplit]
    by_cases hc : c = sep
    · subst hc
      simp [List.count_cons, ih]
    · simp only [if_neg hc]
      rcases hh : rustSplit sep rest with _ | ⟨h, t⟩
      · exact absurd hh (rustSplit_ne_nil sep rest)
      · have := ih
        rw [hh] at this
        simp only [List.length_cons] at this ⊢
        rw [List.count_cons]
        simp [hc, this]

/-- No field produced by the split contains the separator. -/
theorem rustSplit_not_mem (sep : Char) (l : List Char) :
    ∀ p ∈ rustSplit sep l, sep ∉ p := by
  induction l with
  | nil => simp [rustSplit]
  | cons c rest ih =>
    simp only [rustSplit]
    by_cases hc : c = sep
    · subst hc
      simp only [if_pos rfl]
      intro p hp
      rcases List.mem_cons.mp hp with h | h
      · simp [h]
      · exact ih p h
    · simp only [if_neg hc]
      rcases hh : rustSplit sep rest with _ | ⟨h, t⟩
      · exact absurd hh (rustSplit_ne_nil sep rest)
      · intro p hp
        rcases List.mem_cons.mp hp with h1 | h1
        · subst h1
          intro hmem
          rcases List.mem_cons.mp hmem with h2 | h2
          · exact hc h2.symm
          · exact ih h (by rw [hh]; exact List.mem_cons_self h t) h2
        · exact ih p (by rw [hh]; exact List.mem_cons_of_mem h h1)

/-- Splitting a string that starts with a separator-free prefix followed by
a separator peels off that prefix as the first field. -/
theorem rustSplit_append (sep : Char) (a rest : List Char) (ha : sep ∉ a) :
    rustSplit sep (a ++ sep :: rest) = a :: rustSplit sep rest := by
  induction a with
  | nil => simp [rustSplit]
  | cons c a ih =>
    have hc : ¬ c = sep := by
      intro h
      exact ha (by simp [h])
    have ha2 : sep ∉ a := fun h => ha (List.mem_cons_of_mem c h)
    simp only [List.cons_append, rustSplit, if_neg hc, List.append_eq, ih ha2]

/-- The trace context carried across the protocol boundary, from
src/src/main.rs (struct W3CTraceContext). -/
structure W3CTraceContext where
  trace_id : List Char
  span_id : List Char
deriving DecidableEq

/-- Header parsing, from src/src/main.rs (parse_traceparent): split on a
hyphen, require at least 3 fields, take the second and third field as
trace id and span id.  No other validation of field content. -/
def parse_traceparent (tp : List Char) : Option W3CTraceContext :=
  let parts := rustSplit '-' tp
  if 3 ≤ parts.length then
    match parts[1]?, parts[2]? with
    | some tid, some sid => some ⟨tid, sid⟩
    | _, _ => none
  else none

/-- Header extraction, from src/src/main.rs (extract_w3c_trace_context):
a missing header yields absence, otherwise the value is parsed. -/
def extract_w3c_trace_context (header : Option (List Char)) : Option W3CTraceContext :=
  header.bind parse_traceparent

/-- The re-encoded traceparent value built by inject_w3c_headers in
src/src/main.rs: the version field is the constant "00" and the
trace-flags field is the constant "01". -/
def encode_traceparent (ctx : W3CTraceContext) : List Char :=
  "00-".toList ++ ctx.trace_id ++ "-".toList ++ ctx.span_id ++ "-01".toList

/-- Header injection, from src/src/main.rs (inject_w3c_headers): the
record headers are always set (the outer some), holding the traceparent
key with the re-encoded value when a context is present, and an empty
header collection otherwise. -/
def inject_w3c_headers (ctx : Option W3CTraceContext) :
    Option (List (List Char × List Char)) :=
  match ctx with
  | some c => some [("traceparent".toList, encode_traceparent c)]
  | none => some []

theorem parse_traceparent_eq_some (tp : List Char) (ctx : W3CTraceContext)
    (h : parse_traceparent tp = some ctx) :
    3 ≤ (rustSplit '-' tp).length ∧
    (rustSplit '-' tp)[1]? = some ctx.trace_id ∧
    (rustSplit '-' tp)[2]? = some ctx.span_id := by
  unfold parse_traceparent at h
  by_cases hlen : 3 ≤ (rustSplit '-' tp).length
  · refine ⟨hlen, ?_⟩
    have h1 := List.getElem?_eq_getElem (l := rustSplit '-' tp) (n := 1) (by omega)
    have h2 := List.getElem?_eq_getElem (l := rustSplit '-' tp) (n := 2) (by omega)
    simp only [if_pos hlen, h1, h2] at h
    cases h
    exact ⟨h1, h2⟩
  · simp [if_neg hlen] at h

/-- The domain event, from src/src/models.rs (enum ItemEvent with serde
tag "type" and variant renamed to "item_created"). -/
inductive ItemEvent where
  | Created (id : List Char) (name : List Char) (value : Int) (created_at : List Char)
deriving DecidableEq

/-- JSON values at the level serde_json works with: strings, 64-bit
integers and objects are all the event serialization needs. -/
inductive Json where
  | str (s : List Char)
  | num (n : Int)
  | obj (fields : List ((List Char) × Json))

/-- First-match field lookup in a JSON object. -/
def jsonLookup (key : List Char) : List ((List Char) × Json) → Option Json
  | [] => none
  | (k, v) :: rest => if k = key then some v else jsonLookup key rest

/-- Serialization of ItemEvent by serde with an internal tag: the tag is
an explicit "type" field holding "item_created", followed by the variant
fields in declaration order. -/
def serializeItemEvent : ItemEvent → Json
  | .Created id name value created_at =>
    .obj [("type".toList, .str "item_created".toList),
          ("id".toList, .str id),
          ("name".toList, .str name),
          ("value".toList, .num value),
          ("created_at".toList, .str created_at)]

/-- Deserialization of ItemEvent by serde: dispatch on the explicit
"type" tag field, then read the variant fields by name. -/
def parseItemEvent (j : Json) : Option ItemEvent :=
  match j with
  | .obj fields =>
    match jsonLookup "type".toList fields with
    | some (.str tag) =>
      if tag = "item_created".toList then
        match jsonLookup "id".toList fields, jsonLookup "name".toList fields,
              jsonLookup "value".toList fields,
              jsonLookup "created_at".toList fields with
        | some (.str id), some (.str name), some (.num v), some (.str ca) =>
          some (.Created id name v ca)
        | _, _, _, _ => none
      else none
    | _ => none
  | _ => none

/-- Model of rng.random_range over the half-open range 0..1000 used in
create_item: an arbitrary raw draw from the random source is reduced to
the range by the modulus, as a uniform range draw does. -/
def randomRange (raw : Nat) : Int := Int.ofNat (raw % 1000)

/-- Value resolution in create_item (src/src/main.rs): the caller value is
used when present, otherwise the random draw. -/
def resolve_value (input : CreateItemRequest) (raw : Nat) : Int :=
  input.value.getD (randomRange raw)

/-- Outcome of the store insert, the environment of one request: the
backend either returns the persisted row or fails with an error whose
debug rendering is the given message. -/
inductive DbOutcome where
  | ok (row : Item)
  | err (msg : List Char)
deriving DecidableEq

/-- Externally visible calls made by the write path, in order: the store
insert with the bound arguments, and the publish call with its payload
event, the injected message headers and the broker outcome. -/
inductive Effect where
  | storeCreate (name : List Char) (value : Int)
  | publish (event : ItemEvent)
      (headers : Option (List ((List Char) × (List Char)))) (succeeded : Bool)
deriving DecidableEq

/-- HTTP result of create_item: the success arm carries the status and
the full Item body, the failure arm the status and the error-object body
with its single error field. -/
inductive CreateResult where
  | ok (status : Nat) (item : Item)
  | err (status : Nat) (msg : List Char)
deriving DecidableEq

/-- The write path, from src/src/main.rs (create_item): validate the
name (400 on failure, before any effect), extract the trace context,
resolve the value, insert (500 on failure, with the database error
rendered into the body; no publish), build the Created event from the
persisted row, publish with injected headers, and answer 201 with the
row whatever the publish outcome was.  The second component is the trace
of externally visible calls in execution order. -/
def create_item (input : CreateItemRequest) (traceHeader : Option (List Char))
    (raw : Nat) (db : DbOutcome) (pub : Bool) : CreateResult × List Effect :=
  match Item.validate_name input.name with
  | .error e => (.err 400 e, [])
  | .ok _ =>
    let trace_context := extract_w3c_trace_context traceHeader
    let value := resolve_value input raw
    match db with
    | .err msg =>
      (.err 500 ("Database error: ".toList ++ msg), [.storeCreate input.name value])
    | .ok row =>
      let event := ItemEvent.Created row.id row.name row.value row.created_at
      (.ok 201 row,
       [.storeCreate input.name value,
        .publish event (inject_w3c_headers trace_context) pub])

/-- Outcome of the store lookup backing the read path. -/
inductive GetOutcome where
  | found (item : Item)
  | missing
  | dbErr
deriving DecidableEq

/-- Response body of the read path: either a full Item or an error
object with a single error field. -/
inductive Body where
  | item (i : Item)
  | errObj (msg : List Char)
deriving DecidableEq

/-- The read path, from src/src/main.rs (get_item): 200 with the row
when found; a bare 404 status with no body when absent; a bare 500
status with no body on a store failure. -/
def get_item : GetOutcome → Nat × Option Body
  | .found it => (200, some (.item it))
  | .missing => (404, none)
  | .dbErr => (500, none)

theorem rustTrim_not_isEmpty (name : List Char)
    (hex : ∃ c ∈ name, isRustWhitespace c = false) :
    (rustTrim name).isEmpty = false := by
  rcases hex with ⟨c, hc, hw⟩
  rw [List.isEmpty_eq_false_iff_exists_mem]
  by_contra hne
  push_neg at hne
  have : rustTrim name = [] := List.eq_nil_iff_forall_not_mem.mpr hne
  have := (rustTrim_eq_nil_iff name).mp this c hc
  rw [this] at hw
  exact Bool.true_eq_false.mp hw

theorem utf8Len_replicate (n : Nat) (c : Char) :
    utf8Len (List.replicate n c) = n * utf8CharLen c := by
  induction n with
  | zero => simp [utf8Len, List.replicate]
  | succ n ih =>
    rw [List.replicate_succ]
    have hcons : utf8Len (c :: List.replicate n c) =
        utf8CharLen c + utf8Len (List.replicate n c) := rfl
    rw [hcons, ih, Nat.succ_mul]
    omega

/-- C4 counterexample: a name of 256 space characters has raw length
exceeding 255, yet validate_name reports the emptiness message, not a
message indicating the length limit, contradicting the claim that every
over-long name fails with a length message. -/
theorem claim_C4_counterexample :
    255 < utf8Len (List.replicate 256 ' ') ∧
    Item.validate_name (List.replicate 256 ' ') =
      Except.error ("name cannot be empty".toList) ∧
    "name cannot be empty".toList ≠ "name cannot exceed 255 characters".toList := by
  have hlen : utf8Len (List.replicate 256 ' ') = 256 := by
    rw [utf8Len_replicate]
    rfl
  have htrim : rustTrim (List.replicate 256 ' ') = [] := by
    rw [rustTrim_eq_nil_iff]
    intro c hc
    rw [List.eq_of_mem_replicate hc]
    rfl
  refine ⟨by omega, ?_, by decide⟩
  unfold Item.validate_name
  rw [htrim]
  rfl

/-- C4 amended: a name with at least one non-whitespace character and
UTF-8 byte length at most 255 validates; a name whose characters are all
whitespace (the empty name included) fails with exactly the emptiness
message, whatever its length; a name with a non-whitespace character and
byte length above 255 fails with the length-limit message. -/
theorem claim_C4_validate_name (name : List Char) :
    ((∃ c ∈ name, isRustWhitespace c = false) → utf8Len name ≤ 255 →
      Item.validate_name name = Except.ok ()) ∧
    ((∀ c ∈ name, isRustWhitespace c = true) →
      Item.validate_name name = Except.error ("name cannot be empty".toList)) ∧
    ((∃ c ∈ name, isRustWhitespace c = false) → 255 < utf8Len name →
      Item.validate_name name =
        Except.error ("name cannot exceed 255 characters".toList)) := by
  refine ⟨?_, ?_, ?_⟩
  · intro hex hle
    unfold Item.validate_name
    rw [rustTrim_not_isEmpty name hex, if_neg Bool.false_ne_true,
        if_neg (Nat.not_lt.mpr hle)]
  · intro hall
    have htrim : rustTrim name = [] := (rustTrim_eq_nil_iff name).mpr hall
    unfold Item.validate_name
    rw [htrim]
    rfl
  · intro hex hgt
    unfold Item.validate_name
    rw [rustTrim_not_isEmpty name hex, if_neg Bool.false_ne_true, if_pos hgt]

/-- C4 witness: the one-letter name validates. -/
theorem claim_C4_validate_name_witness : Item.validate_name ['a'] = Except.ok () :=
  (claim_C4_validate_name ['a']).1 (by decide) (by decide)

/-- C1: validation failure answers 400 with the error body and produces
no store and no publish call; a persist failure answers 500 with no
publish call; and any publish call in the trace happens strictly after a
successful store create, for the event built from the persisted row. -/
theorem claim_C1_write_path_ordering (input : CreateItemRequest)
    (th : Option (List Char)) (raw : Nat) (db : DbOutcome) (pub : Bool) :
    (∀ e, Item.validate_name input.name = Except.error e →
      create_item input th raw db pub = (CreateResult.err 400 e, [])) ∧
    (∀ msg, Item.validate_name input.name = Except.ok () → db = DbOutcome.err msg →
      (create_item input th raw db pub).1 =
        CreateResult.err 500 ("Database error: ".toList ++ msg) ∧
      ∀ ev hs p, Effect.publish ev hs p ∉ (create_item input th raw db pub).2) ∧
    (∀ ev hs p, Effect.publish ev hs p ∈ (create_item input th raw db pub).2 →
      ∃ row, db = DbOutcome.ok row ∧
        ev = ItemEvent.Created row.id row.name row.value row.created_at ∧
        (create_item input th raw db pub).2 =
          [Effect.storeCreate input.name (resolve_value input raw),
           Effect.publish ev hs p]) := by
  refine ⟨?_, ?_, ?_⟩
  · intro e he
    simp [create_item, he]
  · intro msg hv hdb
    subst hdb
    simp [create_item, hv]
  · intro ev hs p hmem
    rcases hval : Item.validate_name input.name with e | u
    · simp [create_item, hval] at hmem
    · cases db with
      | err msg => simp [create_item, hval] at hmem
      | ok row =>
        have heff : (create_item input th raw (DbOutcome.ok row) pub).2 =
            [Effect.storeCreate input.name (resolve_value input raw),
             Effect.publish
               (ItemEvent.Created row.id row.name row.value row.created_at)
               (inject_w3c_headers (extract_w3c_trace_context th)) pub] := by
          simp [create_item, hval]
        rw [heff] at hmem
        rcases List.mem_cons.mp hmem with h | h
        · simp at h
        · have h2 := List.mem_singleton.mp h
          injection h2 with hev hhs hp
          subst hev
          subst hhs
          subst hp
          exact ⟨row, rfl, rfl, heff⟩

/-- C1 witness: with a valid name and a failing store, the response is
the 500 error and the trace holds no publish call. -/
theorem claim_C1_write_path_ordering_witness :
    (create_item ⟨['a'], some 5⟩ none 0 (DbOutcome.err ['b']) true).1 =
      CreateResult.err 500 ("Database error: ".toList ++ ['b']) ∧
    ∀ ev hs p, Effect.publish ev hs p ∉
      (create_item ⟨['a'], some 5⟩ none 0 (DbOutcome.err ['b']) true).2 :=
  (claim_C1_write_path_ordering ⟨['a'], some 5⟩ none 0
    (DbOutcome.err ['b']) true).2.1 ['b'] rfl rfl

/-- C2: with a validated name and a successful persist, the response is
201 with the full persisted row, for either publish outcome. -/
theorem claim_C2_publish_failure_absorbed (input : CreateItemRequest)
    (th : Option (List Char)) (raw : Nat) (row : Item) (pub : Bool)
    (hv : Item.validate_name input.name = Except.ok ()) :
    (create_item input th raw (DbOutcome.ok row) pub).1 = CreateResult.ok 201 row := by
  simp [create_item, hv]

/-- C2 witness: a failing publish still yields 201 with the row. -/
theorem claim_C2_publish_failure_absorbed_witness :
    (create_item ⟨['a'], some 5⟩ none 0
      (DbOutcome.ok ⟨['i'], ['a'], 5, ['t']⟩) false).1 =
      CreateResult.ok 201 ⟨['i'], ['a'], 5, ['t']⟩ :=
  claim_C2_publish_failure_absorbed ⟨['a'], some 5⟩ none 0 ⟨['i'], ['a'], 5, ['t']⟩ false rfl

/-- C3 counterexample: it is not the case that every outbound message
carries the traceparent key; with no trace context, the attached header
collection is empty, so the key is omitted rather than present with an
empty value. -/
theorem claim_C3_counterexample :
    ¬ ∀ ctx : Option W3CTraceContext, ∃ hs v,
      inject_w3c_headers ctx = some hs ∧ ("traceparent".toList, v) ∈ hs := by
  intro hall
  rcases hall none with ⟨hs, v, heq, hmem⟩
  have : hs = ([] : List (List Char × List Char)) := by
    simpa [inject_w3c_headers] using heq.symm
  rw [this] at hmem
  simp at hmem

/-- C3 amended: a header collection is attached to the outbound message
unconditionally; when a context is present it holds the traceparent key
with the re-encoded value, and when no context is present it is empty
and carries no traceparent key. -/
theorem claim_C3_always_headers :
    (∀ c : W3CTraceContext, inject_w3c_headers (some c) =
      some [("traceparent".toList, encode_traceparent c)]) ∧
    inject_w3c_headers none = some [] ∧
    (∀ ctx : Option W3CTraceContext, ∃ hs, inject_w3c_headers ctx = some hs) := by
  refine ⟨fun c => rfl, rfl, fun ctx => ?_⟩
  cases ctx <;> exact ⟨_, rfl⟩

/-- C5 counterexample: not every failure response of the read path has a
body with an error field; the not-found case answers 404 with no body at
all. -/
theorem claim_C5_counterexample :
    ¬ ∀ g : GetOutcome, ((get_item g).1 = 404 ∨ (get_item g).1 = 500) →
      ∃ m, (get_item g).2 = some (Body.errObj m) := by
  intro hall
  rcases hall GetOutcome.missing (Or.inl rfl) with ⟨m, hm⟩
  simp [get_item] at hm

/-- C5 amended: the 400 validation response and the write-path 500
response carry a single error field (the latter embedding the debug
rendering of the store error), while the read path answers 404 and 500
as bare statuses with no body. -/
theorem claim_C5_error_bodies :
    (∀ input th raw db pub e, Item.validate_name input.name = Except.error e →
      (create_item input th raw db pub).1 = CreateResult.err 400 e) ∧
    (∀ input th raw msg pub, Item.validate_name input.name = Except.ok () →
      (create_item input th raw (DbOutcome.err msg) pub).1 =
        CreateResult.err 500 ("Database error: ".toList ++ msg)) ∧
    get_item GetOutcome.missing = (404, none) ∧
    get_item GetOutcome.dbErr = (500, none) := by
  refine ⟨?_, ?_, rfl, rfl⟩
  · intro input th raw db pub e he
    simp [create_item, he]
  · intro input th raw msg pub hv
    simp [create_item, hv]

/-- C5 witness: the empty name yields the 400 error body with the
emptiness message. -/
theorem claim_C5_error_bodies_witness :
    (create_item ⟨[], none⟩ none 0 (DbOutcome.ok ⟨[], [], 0, []⟩) true).1 =
      CreateResult.err 400 ("name cannot be empty".toList) :=
  claim_C5_error_bodies.1 ⟨[], none⟩ none 0 (DbOutcome.ok ⟨[], [], 0, []⟩) true
    ("name cannot be empty".toList) rfl

theorem rustSplit_header_shape (tid sid : List Char)
    (htid : '-' ∉ tid) (hsid : '-' ∉ sid) :
    rustSplit '-' ("00-".toList ++ tid ++ "-".toList ++ sid ++ "-01".toList) =
      [['0', '0'], tid, sid, ['0', '1']] := by
  have e1 : "00-".toList ++ tid ++ "-".toList ++ sid ++ "-01".toList =
      ['0', '0'] ++ '-' :: (tid ++ '-' :: (sid ++ '-' :: ['0', '1'])) := by
    simp
  rw [e1, rustSplit_append '-' ['0', '0'] _ (by decide),
      rustSplit_append '-' tid _ htid, rustSplit_append '-' sid _ hsid]
  rfl

/-- C6: a missing header yields no trace context; a header with fewer
than 3 hyphen-delimited fields yields no trace context; and a header of
the shape version, trace id, span id, flags yields the context holding
that trace id and span id. -/
theorem claim_C6_extract (tid sid : List Char) :
    extract_w3c_trace_context none = none ∧
    (∀ h, (rustSplit '-' h).length < 3 →
      extract_w3c_trace_context (some h) = none) ∧
    ('-' ∉ tid → '-' ∉ sid →
      parse_traceparent ("00-".toList ++ tid ++ "-".toList ++ sid ++ "-01".toList) =
        some ⟨tid, sid⟩) := by
  refine ⟨rfl, ?_, ?_⟩
  · intro h hlen
    simp [extract_w3c_trace_context, parse_traceparent, Nat.not_le.mpr hlen]
  · intro htid hsid
    rw [parse_traceparent, rustSplit_header_shape tid sid htid hsid]
    rfl

/-- C6 witness: the well-formed header parses to its trace and span ids,
and a two-field header parses to absence. -/
theorem claim_C6_extract_witness :
    parse_traceparent
        ("00-".toList ++ "abc".toList ++ "-".toList ++ "def".toList ++ "-01".toList) =
      some ⟨"abc".toList, "def".toList⟩ ∧
    extract_w3c_trace_context (some "00-abc".toList) = none :=
  ⟨(claim_C6_extract "abc".toList "def".toList).2.2 (by decide) (by decide),
   (claim_C6_extract [] []).2.1 "00-abc".toList (by decide)⟩

/-- C7: re-encoding a successfully extracted context yields a header
whose four fields are the constant version 00, the unchanged inbound
trace id and span id (the second and third inbound fields), and the
constant sampled flags 01, whatever the inbound flags were. -/
theorem claim_C7_reencode (h : List Char) (ctx : W3CTraceContext)
    (hp : parse_traceparent h = some ctx) :
    rustSplit '-' (encode_traceparent ctx) =
      [['0', '0'], ctx.trace_id, ctx.span_id, ['0', '1']] ∧
    (rustSplit '-' h)[1]? = some ctx.trace_id ∧
    (rustSplit '-' h)[2]? = some ctx.span_id := by
  obtain ⟨hlen, h1, h2⟩ := parse_traceparent_eq_some h ctx hp
  have htid : '-' ∉ ctx.trace_id :=
    rustSplit_not_mem '-' h ctx.trace_id (List.getElem?_mem h1)
  have hsid : '-' ∉ ctx.span_id :=
    rustSplit_not_mem '-' h ctx.span_id (List.getElem?_mem h2)
  exact ⟨rustSplit_header_shape ctx.trace_id ctx.span_id htid hsid, h1, h2⟩

/-- C7 witness: a header with flags 99 re-encodes with ids unchanged,
version 00 and flags forced to 01. -/
theorem claim_C7_reencode_witness :
    rustSplit '-' (encode_traceparent ⟨"abc".toList, "def".toList⟩) =
      [['0', '0'], "abc".toList, "def".toList, ['0', '1']] ∧
    (rustSplit '-' "00-abc-def-99".toList)[1]? = some "abc".toList ∧
    (rustSplit '-' "00-abc-def-99".toList)[2]? = some "def".toList :=
  claim_C7_reencode "00-abc-def-99".toList ⟨"abc".toList, "def".toList⟩ rfl

/-- C10: any header value splitting into at least 3 hyphen-delimited
fields parses to the context built from the second and third fields with
no content validation; in particular the two-hyphen header parses to the
context with empty trace and span ids. -/
theorem claim_C10_lenient_parse (h : List Char)
    (hlen : 3 ≤ (rustSplit '-' h).length) :
    (∃ tid sid, (rustSplit '-' h)[1]? = some tid ∧
      (rustSplit '-' h)[2]? = some sid ∧
      parse_traceparent h = some ⟨tid, sid⟩) ∧
    parse_traceparent ['-', '-'] = some ⟨[], []⟩ := by
  have h1 := List.getElem?_eq_getElem (l := rustSplit '-' h) (n := 1) (by omega)
  have h2 := List.getElem?_eq_getElem (l := rustSplit '-' h) (n := 2) (by omega)
  refine ⟨⟨_, _, h1, h2, ?_⟩, rfl⟩
  unfold parse_traceparent
  simp only [if_pos hlen, h1, h2]

/-- C10 witness: instantiated at the two-hyphen header. -/
theorem claim_C10_lenient_parse_witness :
    (∃ tid sid, (rustSplit '-' ['-', '-'])[1]? = some tid ∧
      (rustSplit '-' ['-', '-'])[2]? = some sid ∧
      parse_traceparent ['-', '-'] = some ⟨tid, sid⟩) ∧
    parse_traceparent ['-', '-'] = some ⟨[], []⟩ :=
  claim_C10_lenient_parse ['-', '-'] (by decide)

/-- C8: with no caller value, the resolved value is the range draw and
lies in the interval from 0 inclusive to 1000 exclusive; a caller value
is used unchanged; the store insert is only ever invoked with the
request name and the resolved value; and when the store echoes that
value back, the 201 body carries it, in range whenever it was generated. -/
theorem claim_C8_value_generation (input : CreateItemRequest) (raw : Nat) :
    (input.value = none →
      0 ≤ resolve_value input raw ∧ resolve_value input raw < 1000) ∧
    (∀ v, input.value = some v → resolve_value input raw = v) ∧
    (∀ th db pub n v, Effect.storeCreate n v ∈ (create_item input th raw db pub).2 →
      n = input.name ∧ v = resolve_value input raw) ∧
    (∀ th pub row, Item.validate_name input.name = Except.ok () →
      row.value = resolve_value input raw →
      (create_item input th raw (DbOutcome.ok row) pub).1 = CreateResult.ok 201 row ∧
      (input.value = none → 0 ≤ row.value ∧ row.value < 1000)) := by
  have hrange : input.value = none →
      0 ≤ resolve_value input raw ∧ resolve_value input raw < 1000 := by
    intro hnone
    unfold resolve_value randomRange
    rw [hnone]
    simp only [Option.getD_none, Int.ofNat_eq_natCast]
    omega
  refine ⟨hrange, ?_, ?_, ?_⟩
  · intro v hv
    unfold resolve_value
    rw [hv]
    rfl
  · intro th db pub n v hmem
    rcases hval : Item.validate_name input.name with e | u
    · simp [create_item, hval] at hmem
    · cases db with
      | err msg =>
        simp only [create_item, hval] at hmem
        rcases List.mem_singleton.mp hmem with h
        injection h with h1 h2
        exact ⟨h1, h2⟩
      | ok row =>
        simp only [create_item, hval] at hmem
        rcases List.mem_cons.mp hmem with h | h
        · injection h with h1 h2
          exact ⟨h1, h2⟩
        · rcases List.mem_singleton.mp h with h2
          exact absurd h2 (by simp)
  · intro th pub row hv hecho
    refine ⟨by simp [create_item, hv], ?_⟩
    intro hnone
    rw [hecho]
    exact hrange hnone

/-- C8 witness: for a request with no value, the resolved value is in
range. -/
theorem claim_C8_value_generation_witness :
    0 ≤ resolve_value ⟨['a'], none⟩ 7 ∧ resolve_value ⟨['a'], none⟩ 7 < 1000 :=
  (claim_C8_value_generation ⟨['a'], none⟩ 7).1 rfl

/-- C9: serializing a Created event and parsing the result is lossless
in the tag, id, name, value and timestamp, and the serialized form
carries the tag as an explicit type field holding item_created. -/
theorem claim_C9_event_roundtrip (e : ItemEvent) :
    parseItemEvent (serializeItemEvent e) = some e ∧
    ∃ fields, serializeItemEvent e = Json.obj fields ∧
      jsonLookup "type".toList fields = some (Json.str "item_created".toList) := by
  cases e with
  | Created id name value created_at => exact ⟨rfl, _, rfl, rfl⟩
